import Mathlib

/- Verification of the control-plane table-metadata layer declared in
src/clustering/administration/namespace_metadata.hpp: causally versioned
values, their conflict-resolving semilattice join, the per-table metadata
record, tombstone-wrapped catalogs, and the keyspace partition maps. -/

namespace RethinkMeta

/-- Identities (uuid_u in the source) are modelled as natural numbers. -/
abbrev machine_id_t := Nat

/-- Datacenter identity (datacenter_id_t, a uuid). -/
abbrev datacenter_id_t := Nat

/-- Database identity (database_id_t, a uuid). -/
abbrev database_id_t := Nat

/-- Namespace (table) identity (namespace_id_t, a uuid). -/
abbrev namespace_id_t := Nat

/-- Modelled from the spec: the vector clock of a causal value — a mapping
from node identity to a monotonically increasing counter (§3, §9).  The
concrete code (rpc/semilattice/joins/vclock.hpp, vclock_details::version_map_t)
is not under src.  The node space is a finite `Fin n`; the pointwise order is
the usual product order. -/
abbrev version_map_t (n : Nat) := Fin n → Nat

instance (n : Nat) (a b : version_map_t n) : Decidable (a ≤ b) :=
  decidable_of_iff (∀ i, a i ≤ b i) Pi.le_def.symm

instance (n : Nat) (a b : version_map_t n) : Decidable (a < b) :=
  decidable_of_iff (a ≤ b ∧ ¬b ≤ a) lt_iff_le_not_le.symm

/-- Modelled from the spec: clock dominance — `a` dominates `b` when every
counter of `a` is ≥ the one of `b` and at least one is strictly greater (§3). -/
def dominates {n : Nat} (a b : version_map_t n) : Prop := b ≤ a ∧ a ≠ b

instance {n : Nat} (a b : version_map_t n) : Decidable (dominates a b) :=
  decidable_of_iff (b ≤ a ∧ a ≠ b) Iff.rfl

theorem dominates_iff_lt {n : Nat} (a b : version_map_t n) :
    dominates a b ↔ b < a := by
  rw [lt_iff_le_and_ne, dominates]
  exact and_congr_right fun _ => ⟨fun h e => h e.symm, fun h e => h e.symm⟩

/-- Modelled from the spec: a causal value `vclock_t<T>` — a value of type `T`
plus a vector clock (§3).  The code (rpc/semilattice/joins/vclock.hpp) is not
under src; after a merge of concurrent edits the cell must still expose every
contributing edit so callers can detect the conflict (§4.1), so the cell is a
finite set of (clock, value) entries, a singleton as long as no concurrent
edits have met. -/
abbrev vclock_t (n : Nat) (V : Type) := Finset (version_map_t n × V)

/-- Modelled from the spec: pruning of causally dominated entries — an entry
is kept only when no other entry's clock strictly dominates its clock (§4.1
rules 1 and 2: a dominated replica contributes nothing). -/
def cull_old_values {n : Nat} {V : Type} (s : Finset (version_map_t n × V)) :
    Finset (version_map_t n × V) :=
  s.filter (fun p => ∀ q ∈ s, ¬ p.1 < q.1)

/-- Modelled from the spec: `semilattice_join` on causal values — keep every
entry of both replicas that is not causally dominated (§4.1): a dominating
side wins outright, concurrent edits are all retained (the conflict stays
detectable) and the clock is raised to the pointwise max. -/
def vclock_t.semilattice_join {n : Nat} {V : Type} [DecidableEq V]
    (a b : vclock_t n V) : vclock_t n V :=
  cull_old_values (a ∪ b)

/-- Reachable causal values are antichains: distinct entries carry
incomparable clocks (the code keys its value map by the version map and culls
dominated entries on every construction and join). -/
def vclock_t.valid {n : Nat} {V : Type} (s : vclock_t n V) : Prop :=
  ∀ p ∈ s, ∀ q ∈ s, p.1 ≤ q.1 → p = q

/-- The clock of a causal value: the pointwise supremum of the clocks of its
entries (for a singleton cell, just its clock). -/
def vclock_t.clock {n : Nat} {V : Type} (s : vclock_t n V) : version_map_t n :=
  s.sup Prod.fst

/-- Modelled from the spec: the clock created for a fresh causal value — a
single entry (counter 1) for the creating node (§3 lifecycle, §4.4). -/
def one_entry_clock {n : Nat} (machine : Fin n) : version_map_t n :=
  fun i => if i = machine then 1 else 0

/-- Modelled from the spec: `make_vclock` — a freshly created causal value
with a single-entry clock attributed to the creating node. -/
def make_vclock {n : Nat} {V : Type} (v : V) (machine : Fin n) : vclock_t n V :=
  {(one_entry_clock machine, v)}

theorem mem_cull_old_values {n : Nat} {V : Type}
    {s : Finset (version_map_t n × V)} {p : version_map_t n × V} :
    p ∈ cull_old_values s ↔ p ∈ s ∧ ∀ q ∈ s, ¬ p.1 < q.1 := by
  simp [cull_old_values]

theorem exists_surviving_above {n : Nat} {V : Type}
    (s : Finset (version_map_t n × V)) (p : version_map_t n × V) (hp : p ∈ s) :
    ∃ q ∈ cull_old_values s, p.1 ≤ q.1 := by
  classical
  have hne : ((s.filter (fun q => p.1 ≤ q.1)).image Prod.fst).Nonempty :=
    ⟨p.1, Finset.mem_image.2 ⟨p, Finset.mem_filter.2 ⟨hp, le_refl _⟩, rfl⟩⟩
  obtain ⟨m, hm, hmax⟩ := Finset.exists_maximal _ hne
  obtain ⟨q, hq, hq1⟩ := Finset.mem_image.1 hm
  subst hq1
  have hqs : q ∈ s := (Finset.mem_filter.1 hq).1
  have hpq : p.1 ≤ q.1 := (Finset.mem_filter.1 hq).2
  refine ⟨q, mem_cull_old_values.2 ⟨hqs, ?_⟩, hpq⟩
  intro r hr hlt
  exact hmax r.1
    (Finset.mem_image.2 ⟨r, Finset.mem_filter.2 ⟨hr, le_trans hpq (le_of_lt hlt)⟩, rfl⟩) hlt

theorem cull_union_left {n : Nat} {V : Type} [DecidableEq V]
    (s t : Finset (version_map_t n × V)) :
    cull_old_values (cull_old_values s ∪ t) = cull_old_values (s ∪ t) := by
  ext p
  rw [mem_cull_old_values, mem_cull_old_values]
  constructor
  · rintro ⟨hmem, hmax⟩
    have hpmem : p ∈ s ∪ t := by
      rcases Finset.mem_union.1 hmem with h | h
      · exact Finset.mem_union_left _ (mem_cull_old_values.1 h).1
      · exact Finset.mem_union_right _ h
    refine ⟨hpmem, ?_⟩
    intro q hq hlt
    rcases Finset.mem_union.1 hq with hqs | hqt
    · obtain ⟨r, hr, hql⟩ := exists_surviving_above s q hqs
      exact hmax r (Finset.mem_union_left _ hr) (lt_of_lt_of_le hlt hql)
    · exact hmax q (Finset.mem_union_right _ hqt) hlt
  · rintro ⟨hmem, hmax⟩
    have hp' : p ∈ cull_old_values s ∪ t := by
      rcases Finset.mem_union.1 hmem with hs | ht
      · refine Finset.mem_union_left _ (mem_cull_old_values.2 ⟨hs, ?_⟩)
        intro q hq
        exact hmax q (Finset.mem_union_left _ hq)
      · exact Finset.mem_union_right _ ht
    refine ⟨hp', ?_⟩
    intro q hq
    rcases Finset.mem_union.1 hq with hs | ht
    · exact hmax q (Finset.mem_union_left _ (mem_cull_old_values.1 hs).1)
    · exact hmax q (Finset.mem_union_right _ ht)

theorem cull_union_right {n : Nat} {V : Type} [DecidableEq V]
    (s t : Finset (version_map_t n × V)) :
    cull_old_values (s ∪ cull_old_values t) = cull_old_values (s ∪ t) := by
  rw [Finset.union_comm s, cull_union_left, Finset.union_comm t s]

theorem vclock_join_comm {n : Nat} {V : Type} [DecidableEq V]
    (a b : vclock_t n V) :
    a.semilattice_join b = b.semilattice_join a := by
  unfold vclock_t.semilattice_join
  rw [Finset.union_comm]

theorem vclock_join_assoc {n : Nat} {V : Type} [DecidableEq V]
    (a b c : vclock_t n V) :
    (a.semilattice_join b).semilattice_join c
      = a.semilattice_join (b.semilattice_join c) := by
  unfold vclock_t.semilattice_join
  rw [cull_union_left, cull_union_right, Finset.union_assoc]

theorem cull_old_values_of_valid {n : Nat} {V : Type}
    {s : vclock_t n V} (h : s.valid) : cull_old_values s = s := by
  refine Finset.filter_eq_self.2 ?_
  intro p hp q hq hlt
  have hpq : p = q := h p hp q hq (le_of_lt hlt)
  cases hpq
  exact lt_irrefl _ hlt

theorem vclock_join_idem {n : Nat} {V : Type} [DecidableEq V]
    {a : vclock_t n V} (h : a.valid) : a.semilattice_join a = a := by
  unfold vclock_t.semilattice_join
  rw [Finset.union_self, cull_old_values_of_valid h]

theorem make_vclock_valid {n : Nat} {V : Type} (v : V) (machine : Fin n) :
    (make_vclock v machine).valid := by
  intro p hp q hq _
  rw [make_vclock, Finset.mem_singleton] at hp hq
  rw [hp, hq]

theorem clock_cull_old_values {n : Nat} {V : Type}
    (s : Finset (version_map_t n × V)) :
    vclock_t.clock (cull_old_values s) = vclock_t.clock s := by
  refine le_antisymm (Finset.sup_mono (Finset.filter_subset _ _)) ?_
  refine Finset.sup_le ?_
  intro p hp
  obtain ⟨q, hq, hle⟩ := exists_surviving_above s p hp
  exact le_trans hle (Finset.le_sup hq)

/-- The clock of a join is the pointwise supremum of the clocks. -/
theorem vclock_clock_join {n : Nat} {V : Type} [DecidableEq V]
    (a b : vclock_t n V) :
    (a.semilattice_join b).clock = a.clock ⊔ b.clock := by
  unfold vclock_t.semilattice_join
  rw [clock_cull_old_values]
  exact Finset.sup_union

/-- A causal value whose clock strictly dominates the other's absorbs it:
the dominated entry is culled and the dominating singleton is returned
unchanged, value and clock included. -/
theorem vclock_join_dominated {n : Nat} {V : Type} [DecidableEq V]
    (ca cb : version_map_t n) (va vb : V) (h : dominates ca cb) :
    vclock_t.semilattice_join {(ca, va)} {(cb, vb)} = ({(ca, va)} : vclock_t n V) := by
  have hlt : cb < ca := (dominates_iff_lt ca cb).1 h
  ext p
  rw [vclock_t.semilattice_join, mem_cull_old_values]
  constructor
  · rintro ⟨hmem, hmax⟩
    rcases Finset.mem_union.1 hmem with hp | hp
    · exact hp
    · rw [Finset.mem_singleton] at hp
      subst hp
      exact absurd hlt (hmax (ca, va) (Finset.mem_union_left _ (Finset.mem_singleton_self _)))
  · intro hp
    rw [Finset.mem_singleton] at hp
    subst hp
    refine ⟨Finset.mem_union_left _ (Finset.mem_singleton_self _), ?_⟩
    intro q hq hqlt
    rcases Finset.mem_union.1 hq with h1 | h1 <;> rw [Finset.mem_singleton] at h1 <;> subst h1
    · exact lt_irrefl _ hqlt
    · exact lt_asymm hlt hqlt

/-- A pair of causal values where the first is a singleton whose clock
strictly dominates the (singleton) second: the non-conflicted dominance
situation of §4.1, rules 1 and 2. -/
def singleton_dominates {n : Nat} {V : Type} (a b : vclock_t n V) : Prop :=
  ∃ ca va cb vb, a = {(ca, va)} ∧ b = {(cb, vb)} ∧ dominates ca cb

theorem vclock_join_of_singleton_dominates {n : Nat} {V : Type} [DecidableEq V]
    {a b : vclock_t n V} (h : singleton_dominates a b) :
    a.semilattice_join b = a := by
  obtain ⟨ca, va, cb, vb, rfl, rfl, hdom⟩ := h
  exact vclock_join_dominated ca cb va vb hdom

/-- Modelled from the spec: a key interval of the ordered key domain,
half-open `[lo, hi)` (region_t of the source, whose definition is not under
src; the key domain is modelled as Nat). -/
structure region_t where
  lo : Nat
  hi : Nat
deriving DecidableEq

/-- A key belongs to a region. -/
abbrev region_t.contains (I : region_t) (k : Nat) : Prop := I.lo ≤ k ∧ k < I.hi

/-- Two regions intersect: they share at least one key (stated
arithmetically; `overlaps_iff_exists_key` relates it to shared keys). -/
abbrev region_t.overlaps (I J : region_t) : Prop := max I.lo J.lo < min I.hi J.hi

theorem overlaps_iff_exists_key (I J : region_t) :
    I.overlaps J ↔ ∃ k, I.contains k ∧ J.contains k := by
  constructor
  · intro h
    exact ⟨max I.lo J.lo, ⟨le_max_left _ _, lt_of_lt_of_le h (min_le_left _ _)⟩,
      ⟨le_max_right _ _, lt_of_lt_of_le h (min_le_right _ _)⟩⟩
  · rintro ⟨k, ⟨h1, h2⟩, ⟨h3, h4⟩⟩
    omega

/-- Modelled from the spec: a keyspace partition map — intervals over the key
domain, each carrying a value (region_map_t of the source, not under src, §3,
§4.3). -/
abbrev region_map_t (V : Type) := List (region_t × V)

/-- Modelled from the spec: a set of non-overlapping regions with no attached
values (clustering/generic/nonoverlapping_regions.hpp, not under src). -/
abbrev nonoverlapping_regions_t := List region_t

/-- Role of a machine for one region of a blueprint
(clustering/reactor/blueprint.hpp, not under src). -/
inductive blueprint_role_t
  | role_primary
  | role_secondary
  | role_nothing
deriving DecidableEq

/-- Modelled from the spec: the desired placement blueprint — per machine, a
partition map of desired roles (persistable_blueprint_t, not under src, §4.6). -/
abbrev persistable_blueprint_t := List (machine_id_t × region_map_t blueprint_role_t)

/-- Table names (containers/name_string.hpp, not under src). -/
abbrev name_string_t := String

/-- Ack/durability policy value (namespace_metadata.hpp lines 35-55): a
required acknowledgement count (uint32) and a durability class. -/
structure ack_expectation_t where
  expectation_ : Nat
  hard_durability_ : Bool
deriving DecidableEq

/-- The default constructor `ack_expectation_t()` (line 37 of the header):
expectation 0, hard durability true. -/
def ack_expectation_t.default_ctor : ack_expectation_t :=
  ⟨0, true⟩

/-- The two-argument constructor `ack_expectation_t(expectation, hard_durability)`
(lines 39-41 of the header): stores both fields. -/
def ack_expectation_t.ctor (expectation : Nat) (hard_durability : Bool) :
    ack_expectation_t :=
  ⟨expectation, hard_durability⟩

/-- Modelled from the spec: `ack_expectation_t::operator==` — declared at line
48 of the header, body not under src; equality is structural on the pair (§4.5). -/
def ack_expectation_t.eq_op (a b : ack_expectation_t) : Bool :=
  (a.expectation_ == b.expectation_) && (a.hard_durability_ == b.hard_durability_)

/-- The per-table metadata record (namespace_metadata.hpp lines 59-73): ten
causally versioned fields, over a node space of `n` identities. -/
structure namespace_semilattice_metadata_t (n : Nat) where
  blueprint : vclock_t n persistable_blueprint_t
  primary_datacenter : vclock_t n datacenter_id_t
  replica_affinities : vclock_t n (List (datacenter_id_t × Int))
  ack_expectations : vclock_t n (List (datacenter_id_t × ack_expectation_t))
  shards : vclock_t n nonoverlapping_regions_t
  name : vclock_t n name_string_t
  primary_pinnings : vclock_t n (region_map_t machine_id_t)
  secondary_pinnings : vclock_t n (region_map_t (List machine_id_t))
  primary_key : vclock_t n String
  database : vclock_t n database_id_t
deriving DecidableEq

/-- Modelled from the spec: the semilattice join of two per-table records
(RDB_DECLARE_SEMILATTICE_JOINABLE at line 82 of the header, body not under
src): each field is joined independently per §4.1 (§4.4). -/
def namespace_semilattice_metadata_t.semilattice_join {n : Nat}
    (a b : namespace_semilattice_metadata_t n) :
    namespace_semilattice_metadata_t n :=
  ⟨a.blueprint.semilattice_join b.blueprint,
   a.primary_datacenter.semilattice_join b.primary_datacenter,
   a.replica_affinities.semilattice_join b.replica_affinities,
   a.ack_expectations.semilattice_join b.ack_expectations,
   a.shards.semilattice_join b.shards,
   a.name.semilattice_join b.name,
   a.primary_pinnings.semilattice_join b.primary_pinnings,
   a.secondary_pinnings.semilattice_join b.secondary_pinnings,
   a.primary_key.semilattice_join b.primary_key,
   a.database.semilattice_join b.database⟩

/-- A reachable per-table record: every field is a pruned causal value. -/
def namespace_semilattice_metadata_t.valid {n : Nat}
    (a : namespace_semilattice_metadata_t n) : Prop :=
  a.blueprint.valid ∧ a.primary_datacenter.valid ∧ a.replica_affinities.valid ∧
  a.ack_expectations.valid ∧ a.shards.valid ∧ a.name.valid ∧
  a.primary_pinnings.valid ∧ a.secondary_pinnings.valid ∧
  a.primary_key.valid ∧ a.database.valid

theorem ns_join_comm {n : Nat} (a b : namespace_semilattice_metadata_t n) :
    a.semilattice_join b = b.semilattice_join a := by
  unfold namespace_semilattice_metadata_t.semilattice_join
  congr 1 <;> exact vclock_join_comm _ _

theorem ns_join_assoc {n : Nat} (a b c : namespace_semilattice_metadata_t n) :
    (a.semilattice_join b).semilattice_join c
      = a.semilattice_join (b.semilattice_join c) := by
  unfold namespace_semilattice_metadata_t.semilattice_join
  congr 1 <;> exact vclock_join_assoc _ _ _

theorem ns_join_idem {n : Nat} {a : namespace_semilattice_metadata_t n}
    (h : a.valid) : a.semilattice_join a = a := by
  obtain ⟨h1, h2, h3, h4, h5, h6, h7, h8, h9, h10⟩ := h
  cases a
  unfold namespace_semilattice_metadata_t.semilattice_join
  congr 1 <;> exact vclock_join_idem (by assumption)

/-- The key domain of the model: `[0, keyspace_size)` stands for the whole
ordered key space. -/
def keyspace_size : Nat := 2 ^ 64

/-- The single interval spanning the whole key domain (§4.4). -/
def whole_keyspace : region_t := ⟨0, keyspace_size⟩

/-- The nil machine identity used when a region is assigned to no machine. -/
def nil_machine : machine_id_t := 0

/-- Modelled from the spec: `new_namespace` — declared at lines 78-80 of the
header (creating machine, owning database, seed datacenter, table name,
primary-key field name, in that order); its body is not under src.  Per §4.4
every field is a freshly created causal value with a single-entry clock for
the creating node, the partitioning is a single interval spanning the whole
key domain assigned to no machine, and affinities are empty. -/
def new_namespace {n : Nat} (machine : Fin n) (database : database_id_t)
    (datacenter : datacenter_id_t) (name : name_string_t) (key : String) :
    namespace_semilattice_metadata_t n :=
  ⟨make_vclock [] machine,
   make_vclock datacenter machine,
   make_vclock [] machine,
   make_vclock [] machine,
   make_vclock [whole_keyspace] machine,
   make_vclock name machine,
   make_vclock [(whole_keyspace, nil_machine)] machine,
   make_vclock [(whole_keyspace, [])] machine,
   make_vclock key machine,
   make_vclock database machine⟩

theorem new_namespace_valid {n : Nat} (machine : Fin n)
    (database : database_id_t) (datacenter : datacenter_id_t)
    (name : name_string_t) (key : String) :
    (new_namespace machine database datacenter name key).valid :=
  ⟨make_vclock_valid _ _, make_vclock_valid _ _, make_vclock_valid _ _,
   make_vclock_valid _ _, make_vclock_valid _ _, make_vclock_valid _ _,
   make_vclock_valid _ _, make_vclock_valid _ _, make_vclock_valid _ _,
   make_vclock_valid _ _⟩

/-- Modelled from the spec: the tombstone wrapper `deletable_t<T>`
(rpc/semilattice/joins/deletable.hpp, not under src): a map value together
with an alive/deleted flag that itself participates in the causal merge (§3,
§4.2) — `deleted` is a causally versioned Boolean (true = tombstone). -/
structure deletable_t (n : Nat) (V : Type) where
  deleted : vclock_t n Bool
  t : V
deriving DecidableEq

/-- Modelled from the spec: joining two tombstone wrappers — the flag merges
per §4.1 (a causally later transition wins, concurrent transitions are both
retained), and the wrapped values merge with the value join (§4.2). -/
def deletable_t.semilattice_join {n : Nat} {V : Type} [DecidableEq V]
    (join_v : V → V → V) (a b : deletable_t n V) : deletable_t n V :=
  ⟨a.deleted.semilattice_join b.deleted, join_v a.t b.t⟩

/-- An entry counts as deleted when any surviving flag transition is a
tombstone: a delete wins over a concurrent non-deletion update (§3). -/
def deletable_t.is_deleted {n : Nat} {V : Type} (d : deletable_t n V) : Prop :=
  ∃ p ∈ d.deleted, p.2 = true

/-- The catalog of all tables of one protocol (namespace_metadata.hpp lines
101-105): a map from table identity to tombstone-wrapped per-table record,
modelled as a function into Option. -/
structure namespaces_semilattice_metadata_t (n : Nat) where
  namespaces : namespace_id_t → Option (deletable_t n (namespace_semilattice_metadata_t n))

/-- Modelled from the spec: the semilattice join of two catalogs
(RDB_DECLARE_SEMILATTICE_JOINABLE at line 108 of the header, body not under
src): entry-wise, tombstone-merge per matching key, union of keys (§3, §4.2). -/
def namespaces_semilattice_metadata_t.semilattice_join {n : Nat}
    (A B : namespaces_semilattice_metadata_t n) :
    namespaces_semilattice_metadata_t n :=
  ⟨fun k =>
    match A.namespaces k, B.namespaces k with
    | none, r => r
    | some d, none => some d
    | some d1, some d2 =>
        some (d1.semilattice_join namespace_semilattice_metadata_t.semilattice_join d2)⟩

/-- The directory/observed-state record (namespace_metadata.hpp lines
120-149): its only data member is the reactor_bcards map; the business-card
payload type (directory_echo_wrapper_t<cow_ptr_t<reactor_business_card_t>>,
headers not under src) is kept abstract as `B`. -/
structure namespaces_directory_metadata_t (B : Type) where
  reactor_bcards : namespace_id_t → Option B

/-- The copy-assignment operator (lines 129-132 of the header): it assigns
exactly the reactor_bcards field of the source and returns the target. -/
def namespaces_directory_metadata_t.copy_assign {B : Type}
    (_target source : namespaces_directory_metadata_t B) :
    namespaces_directory_metadata_t B :=
  ⟨source.reactor_bcards⟩

/-- The move-assignment operator (lines 133-136 of the header): it moves
exactly the reactor_bcards field of the source into the target. -/
def namespaces_directory_metadata_t.move_assign {B : Type}
    (_target source : namespaces_directory_metadata_t B) :
    namespaces_directory_metadata_t B :=
  ⟨source.reactor_bcards⟩

/-- The copy constructor (lines 123-125 of the header): delegates to the
copy-assignment operator applied to a default-constructed record. -/
def namespaces_directory_metadata_t.copy_ctor {B : Type}
    (source : namespaces_directory_metadata_t B) :
    namespaces_directory_metadata_t B :=
  namespaces_directory_metadata_t.copy_assign ⟨fun _ => none⟩ source

/-- Modelled from the spec: equality of directory records
(RDB_DECLARE_EQUALITY_COMPARABLE at line 149 of the header, body not under
src): structural comparison of the single reactor_bcards member. -/
def namespaces_directory_metadata_t.eq_op {B : Type}
    (a b : namespaces_directory_metadata_t B) : Prop :=
  a.reactor_bcards = b.reactor_bcards

/-- Modelled from the spec: the part of a region left after removing the
assigned interval — at most a piece below and a piece above (§4.3 `assign`
splits existing intervals as needed). -/
def region_sub (J I : region_t) : List region_t :=
  ([⟨J.lo, min J.hi I.lo⟩, ⟨max J.lo I.hi, J.hi⟩] : List region_t).filter
    (fun r => r.lo < r.hi)

/-- Modelled from the spec: `assign(interval, value)` on a partition map
(§4.3): split existing intervals so the new interval carries the given value
while all other key coverage is preserved; assigning an empty interval leaves
the map unchanged. -/
def assign {V : Type} (m : region_map_t V) (I : region_t) (v : V) :
    region_map_t V :=
  if I.lo < I.hi then
    (I, v) :: (m.map (fun e => (region_sub e.1 I).map (fun r => (r, e.2)))).flatten
  else m

/-- A sequence of `assign` calls, applied in order. -/
def apply_assigns {V : Type} (m : region_map_t V)
    (ops : List (region_t × V)) : region_map_t V :=
  ops.foldl (fun acc op => assign acc op.1 op.2) m

/-- The no-overlap invariant (§4.3): no two stored intervals intersect. -/
def no_overlap {V : Type} (m : region_map_t V) : Prop :=
  m.Pairwise (fun a b => ¬ a.1.overlaps b.1)

instance {V : Type} (m : region_map_t V) : Decidable (no_overlap m) :=
  List.instDecidablePairwise m

/-- Full coverage of a domain: every key of the domain is owned by some
stored interval (the coverage-guaranteed variant of the map, §3). -/
def covers {V : Type} (m : region_map_t V) (dom : region_t) : Prop :=
  ∀ k, dom.contains k → ∃ e ∈ m, e.1.contains k

/-- Error taxonomy of the keyspace lookup (§7). -/
inductive lookup_error_t
  | NotCovered
deriving DecidableEq

/-- Modelled from the spec: `lookup(key)` on a partition map (§4.3): the value
of the interval owning the key, or `NotCovered` when the key falls in a gap. -/
def lookup {V : Type} (m : region_map_t V) (k : Nat) : Except lookup_error_t V :=
  match m.find? (fun e => decide (e.1.contains k)) with
  | some e => Except.ok e.2
  | none => Except.error lookup_error_t.NotCovered

theorem mem_region_sub {J I r : region_t} :
    r ∈ region_sub J I ↔
      ((r = ⟨J.lo, min J.hi I.lo⟩ ∨ r = ⟨max J.lo I.hi, J.hi⟩) ∧ r.lo < r.hi) := by
  simp [region_sub, or_assoc]

theorem region_sub_subset {J I r : region_t} (h : r ∈ region_sub J I) :
    J.lo ≤ r.lo ∧ r.hi ≤ J.hi := by
  rw [mem_region_sub] at h
  rcases h with ⟨h | h, _⟩ <;> subst h <;> constructor <;> simp

theorem region_sub_not_overlaps {J I r : region_t} (h : r ∈ region_sub J I) :
    ¬ I.overlaps r := by
  rw [mem_region_sub] at h
  rcases h with ⟨h | h, hlt⟩ <;> subst h <;>
    simp only [region_t.overlaps, region_t.lo, region_t.hi] at * <;> omega

theorem region_sub_pairwise {J I : region_t} (hI : I.lo < I.hi) :
    (region_sub J I).Pairwise (fun r1 r2 => ¬ r1.overlaps r2) := by
  refine List.Pairwise.filter _ ?_
  refine List.pairwise_cons.2 ⟨?_, List.pairwise_singleton _ _⟩
  intro r hr
  rw [List.mem_singleton] at hr
  subst hr
  simp only [region_t.overlaps, region_t.lo, region_t.hi]
  omega

theorem no_overlap_assign {V : Type} (m : region_map_t V) (I : region_t)
    (v : V) (h : no_overlap m) : no_overlap (assign m I v) := by
  unfold assign
  by_cases hI : I.lo < I.hi
  · rw [if_pos hI]
    rw [no_overlap, List.pairwise_cons]
    constructor
    · intro e' he'
      rw [List.mem_flatten] at he'
      obtain ⟨l, hl, hel⟩ := he'
      rw [List.mem_map] at hl
      obtain ⟨e, _, rfl⟩ := hl
      rw [List.mem_map] at hel
      obtain ⟨r, hr, rfl⟩ := hel
      exact region_sub_not_overlaps hr
    · rw [List.pairwise_flatten]
      constructor
      · intro l' hl'
        rw [List.mem_map] at hl'
        obtain ⟨e, _, rfl⟩ := hl'
        rw [List.pairwise_map]
        exact region_sub_pairwise hI
      · rw [List.pairwise_map]
        refine h.imp ?_
        intro e1 e2 hne x hx y hy
        rw [List.mem_map] at hx hy
        obtain ⟨r1, hr1, rfl⟩ := hx
        obtain ⟨r2, hr2, rfl⟩ := hy
        have s1 := region_sub_subset hr1
        have s2 := region_sub_subset hr2
        simp only [region_t.overlaps] at *
        omega
  · rw [if_neg hI]
    exact h

theorem no_overlap_apply_assigns {V : Type} (m : region_map_t V)
    (ops : List (region_t × V)) (h : no_overlap m) :
    no_overlap (apply_assigns m ops) := by
  induction ops generalizing m with
  | nil => exact h
  | cons op rest ih => exact ih _ (no_overlap_assign m op.1 op.2 h)

theorem covers_assign {V : Type} {m : region_map_t V} {dom : region_t}
    (I : region_t) (v : V) (h : covers m dom) : covers (assign m I v) dom := by
  intro k hk
  unfold assign
  by_cases hI : I.lo < I.hi
  · rw [if_pos hI]
    by_cases hkI : I.contains k
    · exact ⟨(I, v), List.mem_cons_self _ _, hkI⟩
    · obtain ⟨e, he, hek⟩ := h k hk
      have hek' : e.1.lo ≤ k ∧ k < e.1.hi := hek
      have hcases : k < I.lo ∨ I.hi ≤ k := by
        simp only [region_t.contains] at hkI
        omega
      rcases hcases with hlo | hhi
      · refine ⟨(⟨e.1.lo, min e.1.hi I.lo⟩, e.2),
          List.mem_cons_of_mem _ (List.mem_flatten.2
            ⟨_, List.mem_map_of_mem _ he, List.mem_map_of_mem _ ?_⟩), ?_⟩
        · rw [mem_region_sub]
          refine ⟨Or.inl rfl, ?_⟩
          simp only [region_t.lo, region_t.hi]
          omega
        · refine ⟨?_, ?_⟩ <;> simp only [region_t.lo, region_t.hi] <;> omega
      · refine ⟨(⟨max e.1.lo I.hi, e.1.hi⟩, e.2),
          List.mem_cons_of_mem _ (List.mem_flatten.2
            ⟨_, List.mem_map_of_mem _ he, List.mem_map_of_mem _ ?_⟩), ?_⟩
        · rw [mem_region_sub]
          refine ⟨Or.inr rfl, ?_⟩
          simp only [region_t.lo, region_t.hi]
          omega
        · refine ⟨?_, ?_⟩ <;> simp only [region_t.lo, region_t.hi] <;> omega
  · rw [if_neg hI]
    exact h k hk

theorem covers_apply_assigns {V : Type} {m : region_map_t V} {dom : region_t}
    (ops : List (region_t × V)) (h : covers m dom) :
    covers (apply_assigns m ops) dom := by
  induction ops generalizing m with
  | nil => exact h
  | cons op rest ih => exact ih (covers_assign op.1 op.2 h)

theorem lookup_of_covers {V : Type} {m : region_map_t V} {dom : region_t}
    {k : Nat} (hcov : covers m dom) (hk : dom.contains k) :
    ∃ v, lookup m k = Except.ok v := by
  obtain ⟨e, he, hek⟩ := hcov k hk
  unfold lookup
  cases hfind : m.find? (fun e => decide (e.1.contains k)) with
  | some q => exact ⟨q.2, rfl⟩
  | none =>
      rw [List.find?_eq_none] at hfind
      exact absurd hek (by simpa using hfind e he)

/-- The whole-record dominance situation of §4.4: every field of `A` is a
non-conflicted causal value whose clock strictly dominates the clock of the
corresponding (non-conflicted) field of `B`. -/
def record_dominates {n : Nat} (A B : namespace_semilattice_metadata_t n) : Prop :=
  singleton_dominates A.blueprint B.blueprint ∧
  singleton_dominates A.primary_datacenter B.primary_datacenter ∧
  singleton_dominates A.replica_affinities B.replica_affinities ∧
  singleton_dominates A.ack_expectations B.ack_expectations ∧
  singleton_dominates A.shards B.shards ∧
  singleton_dominates A.name B.name ∧
  singleton_dominates A.primary_pinnings B.primary_pinnings ∧
  singleton_dominates A.secondary_pinnings B.secondary_pinnings ∧
  singleton_dominates A.primary_key B.primary_key ∧
  singleton_dominates A.database B.database

theorem ns_join_of_record_dominates {n : Nat}
    {A B : namespace_semilattice_metadata_t n} (h : record_dominates A B) :
    A.semilattice_join B = A := by
  obtain ⟨h1, h2, h3, h4, h5, h6, h7, h8, h9, h10⟩ := h
  obtain ⟨a1, a2, a3, a4, a5, a6, a7, a8, a9, a10⟩ := A
  obtain ⟨b1, b2, b3, b4, b5, b6, b7, b8, b9, b10⟩ := B
  unfold namespace_semilattice_metadata_t.semilattice_join
  congr 1 <;> exact vclock_join_of_singleton_dominates (by assumption)

/-- The result of a join is a causal upper bound of `x` and `y`: its clock is
pointwise at least both clocks. -/
def clock_dominates_both {n : Nat} {V : Type} (x y z : vclock_t n V) : Prop :=
  x.clock ≤ z.clock ∧ y.clock ≤ z.clock

theorem clock_dominates_both_join {n : Nat} {V : Type} [DecidableEq V]
    (a b : vclock_t n V) : clock_dominates_both a b (a.semilattice_join b) := by
  rw [clock_dominates_both, vclock_clock_join]
  exact ⟨le_sup_left, le_sup_right⟩

/-- C1: for reachable per-table metadata records, the semilattice merge is
commutative, associative and idempotent under structural equality including
clocks: merge(a,b) == merge(b,a), merge(merge(a,b),c) == merge(a,merge(b,c)),
and merge(a,a) == a. -/
theorem C1_merge_semilattice_laws {n : Nat}
    (a b c : namespace_semilattice_metadata_t n)
    (ha : a.valid) (_hb : b.valid) (_hc : c.valid) :
    a.semilattice_join b = b.semilattice_join a ∧
    (a.semilattice_join b).semilattice_join c
      = a.semilattice_join (b.semilattice_join c) ∧
    a.semilattice_join a = a :=
  ⟨ns_join_comm a b, ns_join_assoc a b c, ns_join_idem ha⟩

/-- Concrete per-table record over one node, created by node 0. -/
def ex_record1 : namespace_semilattice_metadata_t 1 :=
  new_namespace 0 7 3 "users" "id"

theorem C1_witness :
    ex_record1.valid ∧
    (ex_record1.semilattice_join ex_record1
        = ex_record1.semilattice_join ex_record1 ∧
     (ex_record1.semilattice_join ex_record1).semilattice_join ex_record1
        = ex_record1.semilattice_join (ex_record1.semilattice_join ex_record1) ∧
     ex_record1.semilattice_join ex_record1 = ex_record1) := by
  have hv : ex_record1.valid := new_namespace_valid 0 7 3 "users" "id"
  exact ⟨hv, C1_merge_semilattice_laws ex_record1 ex_record1 ex_record1 hv hv hv⟩

/-- C2: the clock of a merged causal value is the pointwise maximum of the two
clocks; a causal value whose clock strictly dominates the other's is returned
unchanged by the merge (value and clock); and a whole record each of whose
field clocks dominates the corresponding field clock of the other record
absorbs it: merge(A,B) == A. -/
theorem C2_clock_max_and_dominance {n : Nat} {V : Type} [DecidableEq V]
    (a b : vclock_t n V) (ca cb : version_map_t n) (va vb : V)
    (A B : namespace_semilattice_metadata_t n)
    (hdom : dominates ca cb) (hAB : record_dominates A B) :
    (∀ i, (a.semilattice_join b).clock i = max (a.clock i) (b.clock i)) ∧
    vclock_t.semilattice_join {(ca, va)} {(cb, vb)} = ({(ca, va)} : vclock_t n V) ∧
    A.semilattice_join B = A := by
  refine ⟨?_, vclock_join_dominated ca cb va vb hdom, ns_join_of_record_dominates hAB⟩
  intro i
  rw [vclock_clock_join]
  show a.clock i ⊔ b.clock i = max (a.clock i) (b.clock i)
  rfl

/-- The all-zero clock (the causal bottom). -/
def zero_clock (n : Nat) : version_map_t n := fun _ => 0

/-- Concrete per-table record over two nodes, created by node 0. -/
def ex_record2A : namespace_semilattice_metadata_t 2 :=
  new_namespace 0 7 3 "users" "id"

/-- Concrete record whose fields all carry the dominated all-zero clock. -/
def ex_record2B : namespace_semilattice_metadata_t 2 :=
  ⟨{(zero_clock 2, [])}, {(zero_clock 2, 5)}, {(zero_clock 2, [])},
   {(zero_clock 2, [])}, {(zero_clock 2, [])}, {(zero_clock 2, "old")},
   {(zero_clock 2, [])}, {(zero_clock 2, [])}, {(zero_clock 2, "id")},
   {(zero_clock 2, 7)}⟩

theorem C2_witness :
    dominates (one_entry_clock (n := 2) 0) (zero_clock 2) ∧
    record_dominates ex_record2A ex_record2B ∧
    ((∀ i, (vclock_t.semilattice_join {(one_entry_clock (n := 2) 0, "x")}
              {(zero_clock 2, "y")}).clock i
        = max (vclock_t.clock {(one_entry_clock (n := 2) 0, "x")} i)
              (vclock_t.clock {(zero_clock 2, "y")} i)) ∧
     vclock_t.semilattice_join {(one_entry_clock (n := 2) 0, "x")}
         {(zero_clock 2, "y")}
       = ({(one_entry_clock (n := 2) 0, "x")} : vclock_t 2 String) ∧
     ex_record2A.semilattice_join ex_record2B = ex_record2A) := by
  have h1 : dominates (one_entry_clock (n := 2) 0) (zero_clock 2) := by decide
  have h2 : record_dominates ex_record2A ex_record2B :=
    ⟨⟨_, _, _, _, rfl, rfl, h1⟩, ⟨_, _, _, _, rfl, rfl, h1⟩,
     ⟨_, _, _, _, rfl, rfl, h1⟩, ⟨_, _, _, _, rfl, rfl, h1⟩,
     ⟨_, _, _, _, rfl, rfl, h1⟩, ⟨_, _, _, _, rfl, rfl, h1⟩,
     ⟨_, _, _, _, rfl, rfl, h1⟩, ⟨_, _, _, _, rfl, rfl, h1⟩,
     ⟨_, _, _, _, rfl, rfl, h1⟩, ⟨_, _, _, _, rfl, rfl, h1⟩⟩
  exact ⟨h1, h2,
    C2_clock_max_and_dominance {(one_entry_clock (n := 2) 0, "x")}
      {(zero_clock 2, "y")} (one_entry_clock (n := 2) 0) (zero_clock 2)
      "x" "y" ex_record2A ex_record2B h1 h2⟩

/-- The nine per-table fields enumerated by the spec (§3): every field of the
record except the table name. -/
def spec_nine_fields {n : Nat} (m : namespace_semilattice_metadata_t n) :=
  (m.blueprint, m.primary_datacenter, m.replica_affinities, m.ack_expectations,
   m.shards, m.primary_pinnings, m.secondary_pinnings, m.primary_key, m.database)

/-- Concrete record differing from `ex_record1` only in the name field. -/
def ex_record1_movies : namespace_semilattice_metadata_t 1 :=
  new_namespace 0 7 3 "movies" "id"

/-- C3 counterexample: the record does not consist of nine merged fields —
`name` is a tenth causally versioned field that the merge also combines.  Two
records that agree on all nine fields enumerated by the spec can merge to
different results. -/
theorem C3_counterexample :
    spec_nine_fields ex_record1 = spec_nine_fields ex_record1_movies ∧
    ex_record1.semilattice_join ex_record1 ≠
      ex_record1_movies.semilattice_join ex_record1_movies := by
  refine ⟨rfl, ?_⟩
  intro h
  have h1 : ex_record1.semilattice_join ex_record1 = ex_record1 :=
    ns_join_idem (new_namespace_valid 0 7 3 "users" "id")
  have h2 : ex_record1_movies.semilattice_join ex_record1_movies = ex_record1_movies :=
    ns_join_idem (new_namespace_valid 0 7 3 "movies" "id")
  rw [h1, h2] at h
  have hn := congrArg namespace_semilattice_metadata_t.name h
  have hs : (one_entry_clock (n := 1) 0, "users")
      = (one_entry_clock (n := 1) 0, "movies") := Finset.singleton_inj.1 hn
  exact absurd (congrArg Prod.snd hs) (by decide)

/-- C3 (amended): merging two per-table metadata records merges each of the
ten fields of the record independently per the causal-value rule of §4.1, and
the resulting record is a causal upper bound of both inputs on every field
(its clock is pointwise at least either input's clock). -/
theorem C3_amended_ten_field_merge {n : Nat}
    (a b : namespace_semilattice_metadata_t n) :
    ((a.semilattice_join b).blueprint
        = a.blueprint.semilattice_join b.blueprint ∧
     (a.semilattice_join b).primary_datacenter
        = a.primary_datacenter.semilattice_join b.primary_datacenter ∧
     (a.semilattice_join b).replica_affinities
        = a.replica_affinities.semilattice_join b.replica_affinities ∧
     (a.semilattice_join b).ack_expectations
        = a.ack_expectations.semilattice_join b.ack_expectations ∧
     (a.semilattice_join b).shards = a.shards.semilattice_join b.shards ∧
     (a.semilattice_join b).name = a.name.semilattice_join b.name ∧
     (a.semilattice_join b).primary_pinnings
        = a.primary_pinnings.semilattice_join b.primary_pinnings ∧
     (a.semilattice_join b).secondary_pinnings
        = a.secondary_pinnings.semilattice_join b.secondary_pinnings ∧
     (a.semilattice_join b).primary_key
        = a.primary_key.semilattice_join b.primary_key ∧
     (a.semilattice_join b).database
        = a.database.semilattice_join b.database) ∧
    (clock_dominates_both a.blueprint b.blueprint
        (a.semilattice_join b).blueprint ∧
     clock_dominates_both a.primary_datacenter b.primary_datacenter
        (a.semilattice_join b).primary_datacenter ∧
     clock_dominates_both a.replica_affinities b.replica_affinities
        (a.semilattice_join b).replica_affinities ∧
     clock_dominates_both a.ack_expectations b.ack_expectations
        (a.semilattice_join b).ack_expectations ∧
     clock_dominates_both a.shards b.shards (a.semilattice_join b).shards ∧
     clock_dominates_both a.name b.name (a.semilattice_join b).name ∧
     clock_dominates_both a.primary_pinnings b.primary_pinnings
        (a.semilattice_join b).primary_pinnings ∧
     clock_dominates_both a.secondary_pinnings b.secondary_pinnings
        (a.semilattice_join b).secondary_pinnings ∧
     clock_dominates_both a.primary_key b.primary_key
        (a.semilattice_join b).primary_key ∧
     clock_dominates_both a.database b.database
        (a.semilattice_join b).database) :=
  ⟨⟨rfl, rfl, rfl, rfl, rfl, rfl, rfl, rfl, rfl, rfl⟩,
   ⟨clock_dominates_both_join _ _, clock_dominates_both_join _ _,
    clock_dominates_both_join _ _, clock_dominates_both_join _ _,
    clock_dominates_both_join _ _, clock_dominates_both_join _ _,
    clock_dominates_both_join _ _, clock_dominates_both_join _ _,
    clock_dominates_both_join _ _, clock_dominates_both_join _ _⟩⟩

theorem singleton_vclock_valid {n : Nat} {V : Type} (c : version_map_t n)
    (v : V) : (({(c, v)} : vclock_t n V)).valid := by
  intro p hp q hq _
  rw [Finset.mem_singleton] at hp hq
  rw [hp, hq]

theorem catalog_join_some_some {n : Nat}
    {A B : namespaces_semilattice_metadata_t n} {k : namespace_id_t}
    {d1 d2 : deletable_t n (namespace_semilattice_metadata_t n)}
    (hA : A.namespaces k = some d1) (hB : B.namespaces k = some d2) :
    (A.semilattice_join B).namespaces k
      = some (d1.semilattice_join
          namespace_semilattice_metadata_t.semilattice_join d2) := by
  simp only [namespaces_semilattice_metadata_t.semilattice_join, hA, hB]

/-- C4: tombstone precedence.  Deleting a catalog entry and merging with a
replica holding an older (clock-dominated) non-deleted version leaves the
entry deleted; merging with a causally-later re-creation leaves the entry
present; and a concurrent non-deletion update (no flag transition causally
later than the tombstone) never resurrects a deleted entry. -/
theorem C4_tombstone_precedence {n : Nat} :
    (∀ (A B : namespaces_semilattice_metadata_t n) (K : namespace_id_t)
       (cd cb : version_map_t n) (tA tB : namespace_semilattice_metadata_t n),
       A.namespaces K = some ⟨{(cd, true)}, tA⟩ →
       B.namespaces K = some ⟨{(cb, false)}, tB⟩ →
       dominates cd cb →
       ∃ d, (A.semilattice_join B).namespaces K = some d ∧ d.is_deleted) ∧
    (∀ (A B : namespaces_semilattice_metadata_t n) (K : namespace_id_t)
       (cd cr : version_map_t n) (tA tB : namespace_semilattice_metadata_t n),
       A.namespaces K = some ⟨{(cd, true)}, tA⟩ →
       B.namespaces K = some ⟨{(cr, false)}, tB⟩ →
       dominates cr cd →
       ∃ d, (A.semilattice_join B).namespaces K = some d ∧ ¬ d.is_deleted) ∧
    (∀ (A B : namespaces_semilattice_metadata_t n) (K : namespace_id_t)
       (dA dB : deletable_t n (namespace_semilattice_metadata_t n))
       (cd : version_map_t n),
       A.namespaces K = some dA → B.namespaces K = some dB →
       (cd, true) ∈ dA.deleted → dA.deleted.valid →
       (∀ q ∈ dB.deleted, ¬ cd < q.1) →
       ∃ d, (A.semilattice_join B).namespaces K = some d ∧ d.is_deleted) := by
  refine ⟨?_, ?_, ?_⟩
  · intro A B K cd cb tA tB hA hB hdom
    refine ⟨_, catalog_join_some_some hA hB, ⟨(cd, true), ?_, rfl⟩⟩
    show (cd, true) ∈ vclock_t.semilattice_join {(cd, true)} {(cb, false)}
    rw [vclock_join_dominated _ _ _ _ hdom]
    exact Finset.mem_singleton_self _
  · intro A B K cd cr tA tB hA hB hdom
    refine ⟨_, catalog_join_some_some hA hB, ?_⟩
    rintro ⟨p, hp, hptrue⟩
    rw [show (deletable_t.semilattice_join
          namespace_semilattice_metadata_t.semilattice_join
          ⟨{(cd, true)}, tA⟩ ⟨{(cr, false)}, tB⟩).deleted
        = vclock_t.semilattice_join {(cd, true)} {(cr, false)} from rfl] at hp
    rw [vclock_join_comm, vclock_join_dominated _ _ _ _ hdom] at hp
    rw [Finset.mem_singleton] at hp
    subst hp
    exact Bool.false_ne_true hptrue
  · intro A B K dA dB cd hA hB hmem hvalid hconc
    refine ⟨_, catalog_join_some_some hA hB, ⟨(cd, true), ?_, rfl⟩⟩
    show (cd, true) ∈ vclock_t.semilattice_join dA.deleted dB.deleted
    rw [vclock_t.semilattice_join]
    refine mem_cull_old_values.2 ⟨Finset.mem_union_left _ hmem, ?_⟩
    intro q hq hlt
    rcases Finset.mem_union.1 hq with hqA | hqB
    · have heq : (cd, true) = q := hvalid (cd, true) hmem q hqA (le_of_lt hlt)
      rw [← heq] at hlt
      exact lt_irrefl _ hlt
    · exact hconc q hqB hlt

/-- C5: merging two catalogs is entry-wise with tombstone-merge per matching
key; its key set is the union of the inputs' key sets; and an entry present
only in one input is carried over value-equal. -/
theorem C5_catalog_entrywise_union {n : Nat}
    (A B : namespaces_semilattice_metadata_t n) :
    (∀ k, (A.semilattice_join B).namespaces k ≠ none ↔
       (A.namespaces k ≠ none ∨ B.namespaces k ≠ none)) ∧
    (∀ k d1 d2, A.namespaces k = some d1 → B.namespaces k = some d2 →
       (A.semilattice_join B).namespaces k
         = some (d1.semilattice_join
             namespace_semilattice_metadata_t.semilattice_join d2)) ∧
    (∀ k d, A.namespaces k = some d → B.namespaces k = none →
       (A.semilattice_join B).namespaces k = some d) ∧
    (∀ k d, A.namespaces k = none → B.namespaces k = some d →
       (A.semilattice_join B).namespaces k = some d) := by
  refine ⟨?_, ?_, ?_, ?_⟩
  · intro k
    cases hA : A.namespaces k <;> cases hB : B.namespaces k <;>
      simp [namespaces_semilattice_metadata_t.semilattice_join, hA, hB]
  · intro k d1 d2 hA hB
    exact catalog_join_some_some hA hB
  · intro k d hA hB
    simp only [namespaces_semilattice_metadata_t.semilattice_join, hA, hB]
  · intro k d hA hB
    simp only [namespaces_semilattice_metadata_t.semilattice_join, hA, hB]

/-- A clock with counter 2 for node 0 of two nodes (a causally later edit by
node 0). -/
def ex_clock2 : version_map_t 2 := fun i => if i = 0 then 2 else 0

/-- A deleted catalog cell: tombstone written by node 0. -/
def ex_del_cellA : deletable_t 2 (namespace_semilattice_metadata_t 2) :=
  ⟨{(one_entry_clock 0, true)}, ex_record2A⟩

/-- Catalog holding only table 0, deleted. -/
def ex_catA : namespaces_semilattice_metadata_t 2 :=
  ⟨fun k => if k = 0 then some ex_del_cellA else none⟩

/-- Catalog holding table 0 alive with an older (dominated) clock. -/
def ex_catB : namespaces_semilattice_metadata_t 2 :=
  ⟨fun k => if k = 0 then some ⟨{(zero_clock 2, false)}, ex_record2B⟩ else none⟩

/-- Catalog holding table 0 re-created causally after the tombstone. -/
def ex_catC : namespaces_semilattice_metadata_t 2 :=
  ⟨fun k => if k = 0 then some ⟨{(ex_clock2, false)}, ex_record2B⟩ else none⟩

/-- Catalog holding table 0 alive via an update concurrent with the tombstone
(written by node 1). -/
def ex_catD : namespaces_semilattice_metadata_t 2 :=
  ⟨fun k => if k = 0 then some ⟨{(one_entry_clock 1, false)}, ex_record2B⟩ else none⟩

theorem C4_witness :
    (dominates (one_entry_clock (n := 2) 0) (zero_clock 2) ∧
     ∃ d, (ex_catA.semilattice_join ex_catB).namespaces 0 = some d ∧
       d.is_deleted) ∧
    (dominates ex_clock2 (one_entry_clock (n := 2) 0) ∧
     ∃ d, (ex_catA.semilattice_join ex_catC).namespaces 0 = some d ∧
       ¬ d.is_deleted) ∧
    ((∀ q ∈ ({(one_entry_clock (n := 2) 1, false)} : vclock_t 2 Bool),
        ¬ one_entry_clock (n := 2) 0 < q.1) ∧
     ∃ d, (ex_catA.semilattice_join ex_catD).namespaces 0 = some d ∧
       d.is_deleted) := by
  have hconc : ∀ q ∈ ({(one_entry_clock (n := 2) 1, false)} : vclock_t 2 Bool),
      ¬ one_entry_clock (n := 2) 0 < q.1 := by
    intro q hq
    rw [Finset.mem_singleton] at hq
    subst hq
    decide
  refine ⟨⟨by decide, ?_⟩, ⟨by decide, ?_⟩, ⟨hconc, ?_⟩⟩
  · exact (C4_tombstone_precedence (n := 2)).1 ex_catA ex_catB 0
      (one_entry_clock 0) (zero_clock 2) ex_record2A ex_record2B rfl rfl
      (by decide)
  · exact (C4_tombstone_precedence (n := 2)).2.1 ex_catA ex_catC 0
      (one_entry_clock 0) ex_clock2 ex_record2A ex_record2B rfl rfl
      (by decide)
  · exact (C4_tombstone_precedence (n := 2)).2.2 ex_catA ex_catD 0
      ex_del_cellA ⟨{(one_entry_clock 1, false)}, ex_record2B⟩
      (one_entry_clock 0) rfl rfl (Finset.mem_singleton_self _)
      (singleton_vclock_valid _ _) hconc

/-- The empty catalog: node B never merged any table creation. -/
def ex_cat_empty : namespaces_semilattice_metadata_t 2 :=
  ⟨fun _ => none⟩

theorem C5_witness :
    (ex_catA.namespaces 0 = some ex_del_cellA ∧
     ex_cat_empty.namespaces 0 = none ∧
     (ex_catA.semilattice_join ex_cat_empty).namespaces 0 = some ex_del_cellA) ∧
    (∀ k, (ex_catA.semilattice_join ex_cat_empty).namespaces k ≠ none ↔
       (ex_catA.namespaces k ≠ none ∨ ex_cat_empty.namespaces k ≠ none)) := by
  refine ⟨⟨rfl, rfl, ?_⟩, ?_⟩
  · exact (C5_catalog_entrywise_union ex_catA ex_cat_empty).2.2.1 0
      ex_del_cellA rfl rfl
  · exact (C5_catalog_entrywise_union ex_catA ex_cat_empty).1

/-- C6: after any sequence of `assign` calls on a partition map whose stored
intervals do not overlap, no two stored intervals intersect — the invariant
holds again after every single mutation and hence after the whole sequence. -/
theorem C6_no_overlap_invariant {V : Type} (m : region_map_t V)
    (ops : List (region_t × V)) (h : no_overlap m) :
    (∀ I v, no_overlap (assign m I v)) ∧
    no_overlap (apply_assigns m ops) :=
  ⟨fun I v => no_overlap_assign m I v h, no_overlap_apply_assigns m ops h⟩

/-- Concrete partition map: the whole example domain owned by machine 1. -/
def ex_map1 : region_map_t machine_id_t := [(⟨0, 10⟩, 1)]

/-- Concrete reshard sequence: carve `[2,4)` out for machine 2, then `[7,9)`
for machine 3. -/
def ex_ops1 : List (region_t × machine_id_t) := [(⟨2, 4⟩, 2), (⟨7, 9⟩, 3)]

theorem C6_witness :
    no_overlap ex_map1 ∧
    (no_overlap (assign ex_map1 ⟨2, 4⟩ 2) ∧
     no_overlap (apply_assigns ex_map1 ex_ops1)) := by
  have h : no_overlap ex_map1 := by decide
  exact ⟨h, (C6_no_overlap_invariant ex_map1 ex_ops1 h).1 ⟨2, 4⟩ 2,
    (C6_no_overlap_invariant ex_map1 ex_ops1 h).2⟩

/-- C7: on a coverage-guaranteed partition map, `lookup` never returns
`NotCovered` for a key of the domain, after any sequence of `assign` calls —
the NotCovered branch is unreachable. -/
theorem C7_lookup_never_not_covered {V : Type} (m : region_map_t V)
    (dom : region_t) (ops : List (region_t × V)) (k : Nat)
    (hcov : covers m dom) (hk : dom.contains k) :
    lookup (apply_assigns m ops) k ≠ Except.error lookup_error_t.NotCovered := by
  obtain ⟨v, hv⟩ := lookup_of_covers (covers_apply_assigns ops hcov) hk
  rw [hv]
  intro h
  exact Except.noConfusion h

theorem C7_witness :
    covers ex_map1 ⟨0, 10⟩ ∧ region_t.contains ⟨0, 10⟩ 3 ∧
    lookup (apply_assigns ex_map1 ex_ops1) 3
      ≠ Except.error lookup_error_t.NotCovered := by
  have hcov : covers ex_map1 ⟨0, 10⟩ := by
    intro k hk
    exact ⟨(⟨0, 10⟩, 1), List.mem_singleton_self _, hk⟩
  have hk : region_t.contains ⟨0, 10⟩ 3 := by decide
  exact ⟨hcov, hk, C7_lookup_never_not_covered ex_map1 ⟨0, 10⟩ ex_ops1 3 hcov hk⟩

/-- A freshly created causal value attributed to `machine`: a single
(clock, value) entry whose clock holds counter 1 for the creating node and
no entry (counter 0) for every other node. -/
def fresh_single_entry {n : Nat} {V : Type} (s : vclock_t n V)
    (machine : Fin n) : Prop :=
  ∃ c v, s = {(c, v)} ∧ c machine = 1 ∧ ∀ i, i ≠ machine → c i = 0

theorem make_vclock_fresh {n : Nat} {V : Type} (v : V) (machine : Fin n) :
    fresh_single_entry (make_vclock v machine) machine :=
  ⟨one_entry_clock machine, v, rfl, if_pos rfl, fun _ hi => if_neg hi⟩

/-- C8: `new_namespace` takes exactly a creating node identity, an owning
database identity, a seed datacenter, a table name and a primary-key field
name (in the order of the declaration at lines 78-80 of the header), and
every versioned field of the produced record is a freshly created causal
value whose clock has a single entry for the creating node. -/
theorem C8_new_namespace_fresh_clocks {n : Nat} (machine : Fin n)
    (database : database_id_t) (datacenter : datacenter_id_t)
    (name : name_string_t) (key : String) :
    fresh_single_entry
      (new_namespace machine database datacenter name key).blueprint machine ∧
    fresh_single_entry
      (new_namespace machine database datacenter name key).primary_datacenter machine ∧
    fresh_single_entry
      (new_namespace machine database datacenter name key).replica_affinities machine ∧
    fresh_single_entry
      (new_namespace machine database datacenter name key).ack_expectations machine ∧
    fresh_single_entry
      (new_namespace machine database datacenter name key).shards machine ∧
    fresh_single_entry
      (new_namespace machine database datacenter name key).name machine ∧
    fresh_single_entry
      (new_namespace machine database datacenter name key).primary_pinnings machine ∧
    fresh_single_entry
      (new_namespace machine database datacenter name key).secondary_pinnings machine ∧
    fresh_single_entry
      (new_namespace machine database datacenter name key).primary_key machine ∧
    fresh_single_entry
      (new_namespace machine database datacenter name key).database machine :=
  ⟨make_vclock_fresh _ _, make_vclock_fresh _ _, make_vclock_fresh _ _,
   make_vclock_fresh _ _, make_vclock_fresh _ _, make_vclock_fresh _ _,
   make_vclock_fresh _ _, make_vclock_fresh _ _, make_vclock_fresh _ _,
   make_vclock_fresh _ _⟩

/-- C9: a default-constructed ack_expectation_t has expectation 0 and hard
durability true, and equality is structural on exactly the pair
(expectation_, hard_durability_). -/
theorem C9_ack_expectation_default_and_eq :
    ack_expectation_t.default_ctor.expectation_ = 0 ∧
    ack_expectation_t.default_ctor.hard_durability_ = true ∧
    ∀ a b : ack_expectation_t,
      (ack_expectation_t.eq_op a b = true ↔
        (a.expectation_ = b.expectation_ ∧
         a.hard_durability_ = b.hard_durability_)) :=
  ⟨rfl, rfl, fun a b => by
    simp [ack_expectation_t.eq_op, Bool.and_eq_true, beq_iff_eq]⟩

/-- C10: the directory record's only state is the reactor_bcards map — copy
and move assignment transfer exactly that field, equality is determined by it
alone, and copying a record yields a record equal to the source. -/
theorem C10_directory_record_state {B : Type}
    (t s a b : namespaces_directory_metadata_t B) :
    namespaces_directory_metadata_t.copy_assign t s = ⟨s.reactor_bcards⟩ ∧
    namespaces_directory_metadata_t.move_assign t s = ⟨s.reactor_bcards⟩ ∧
    (namespaces_directory_metadata_t.eq_op a b ↔
      a.reactor_bcards = b.reactor_bcards) ∧
    namespaces_directory_metadata_t.copy_ctor s = s := by
  refine ⟨rfl, rfl, Iff.rfl, ?_⟩
  cases s
  rfl
